import Mathlib

/-!
# Delta Board — formal model of the replication core

Shallow embedding of the Delta Board collaborative-board replication layer:

* `merge.js`   — `mergeCard`, `mergeVote`, `mergePhase`, `mergeState` (LWW merge);
* `dedup.js`   — `isDuplicate`, `markSeen` (per-session opId set);
* `validation.js` — incoming-operation guards;
* `operations.js` — `applyCardOp`, `applyVote`;
* `app.js`     — the incoming-message pipeline (validate → dedup → sync-buffer → apply);
* `sync.js`    — `completeSync` (join-time sync window);
* `BoardHub.cs` — the relay's join / setReady / broadcast handlers.

JavaScript values are modelled as follows: strings are `String`, numbers used
as revisions are `Int`, possibly-absent object fields are `Option _`
(`none` = the field is missing / `undefined`), and the JS falsiness test on a
string field (`!op.x`) is `truthy = false` (missing or empty string).
JS `Map` objects are association lists with `Map.set` replace-in-place /
append-at-end semantics, matching JS insertion-order iteration.
-/

namespace DeltaBoard

/-- `Phase` from `types.js`: `@typedef {'forming' | 'reviewing'} Phase`. -/
inductive Phase where
  | forming
  | reviewing
deriving DecidableEq, Repr

/-- `Card` from `types.js`: `{id, column, text, authorId, rev, isDeleted}`. -/
structure Card where
  id : String
  column : String
  text : String
  authorId : String
  rev : Int
  isDeleted : Bool
deriving DecidableEq, Repr

/-- `Vote` from `types.js`: `{id = cardId+":"+voterId, cardId, voterId, rev, isDeleted}`. -/
structure Vote where
  id : String
  cardId : String
  voterId : String
  rev : Int
  isDeleted : Bool
deriving DecidableEq, Repr

/-- `BoardState` from `types.js`: `{version, phase, cards, votes}` (cards and
votes are arrays that represent id-keyed maps). -/
structure BoardState where
  version : Nat
  phase : Phase
  cards : List Card
  votes : List Vote
deriving DecidableEq, Repr

/-- `createEmptyState` from `types.js` (`BOARD_VERSION = 1`). -/
def createEmptyState : BoardState :=
  { version := 1, phase := .forming, cards := [], votes := [] }

/-! ## merge.js -/

/-- Lexicographic comparison of character lists, the semantics of the JS
`<`/`>` operators on strings (code-unit order). -/
def charListLt : List Char → List Char → Bool
  | [], [] => false
  | [], _ :: _ => true
  | _ :: _, [] => false
  | a :: as, b :: bs => if a < b then true else if b < a then false else charListLt as bs

/-- JS `a < b` on strings: lexicographic on the characters. -/
def strLt (a b : String) : Bool :=
  charListLt a.data b.data

/-- The branch structure of `mergeCard` in `merge.js`: `true` iff the function
returns its `remote` argument.  (JS `remote.rev > local.rev` is
`local.rev < remote.rev`, and `>` on ids is lexicographic string order.) -/
def picksRemoteCard (l r : Card) : Bool :=
  if l.rev < r.rev then true
  else if r.rev < l.rev then false
  else if strLt l.authorId r.authorId then true
  else if strLt r.authorId l.authorId then false
  else if r.isDeleted && !l.isDeleted then true
  else false

/-- `mergeCard(local, remote)` from `merge.js`: higher `rev` wins, then higher
`authorId`, then `isDeleted = true` wins, else `local`. -/
def mergeCard (l r : Card) : Card :=
  if picksRemoteCard l r then r else l

/-- The branch structure of `mergeVote` in `merge.js`: `true` iff the function
returns its `remote` argument. -/
def picksRemoteVote (l r : Vote) : Bool :=
  if l.rev < r.rev then true
  else if r.rev < l.rev then false
  else if strLt l.voterId r.voterId then true
  else if strLt r.voterId l.voterId then false
  else if r.isDeleted && !l.isDeleted then true
  else false

/-- `mergeVote(local, remote)` from `merge.js`. -/
def mergeVote (l r : Vote) : Vote :=
  if picksRemoteVote l r then r else l

/-- `mergePhase(local, remote)` from `merge.js`: `reviewing` dominates. -/
def mergePhase (l r : Phase) : Phase :=
  if l = .reviewing || r = .reviewing then .reviewing else .forming

/-! ### JS `Map` as an association list

`mergeState` builds `Map` objects keyed by entity id.  `Map.set` on an
existing key updates the value in place (keeping the original insertion
position); on a fresh key it appends.  `Map.values()` iterates in insertion
order.  The machinery is generic in the entity type and its key function. -/

variable {α : Type}

/-- `Map.get`: the value stored under key `k`, if any. -/
def mapGet (m : List (String × α)) (k : String) : Option α :=
  (m.find? (fun p => decide (p.1 = k))).map (·.2)

/-- `Map.set`: replace in place if the key is present, else append. -/
def mapSet (m : List (String × α)) (k : String) (v : α) : List (String × α) :=
  match m with
  | [] => [(k, v)]
  | p :: rest => if p.1 = k then (k, v) :: rest else p :: mapSet rest k v

/-- `Array.from(map.values())`: the stored values in insertion order. -/
def mapValues (m : List (String × α)) : List α :=
  m.map (·.2)

/-- The first loop of `mergeState`: seed the map with the local entities
(`for (const card of local.cards) cardMap.set(card.id, card)`). -/
def buildMap (key : α → String) (l : List α) : List (String × α) :=
  l.foldl (fun m c => mapSet m (key c) c) []

/-- One iteration of the second loop of `mergeState`: look up the remote
entity's id; on a hit apply the per-entity merge and record a change exactly
when the winner is the remote entity (`winner !== localCard`); on a miss
adopt the remote entity and record a change. -/
def mergeStep (key : α → String) (picks : α → α → Bool)
    (acc : List (String × α) × Bool) (rc : α) : List (String × α) × Bool :=
  match mapGet acc.1 (key rc) with
  | some lc => if picks lc rc then (mapSet acc.1 (key rc) rc, true) else acc
  | none => (mapSet acc.1 (key rc) rc, true)

/-- The second loop of `mergeState` over all remote entities. -/
def mergeInto (key : α → String) (picks : α → α → Bool)
    (m : List (String × α)) (ch : Bool) (rs : List α) : List (String × α) × Bool :=
  rs.foldl (mergeStep key picks) (m, ch)

/-- `local.version || 1`: a falsy (zero) version defaults to 1. -/
def versionOr1 (v : Nat) : Nat :=
  if v = 0 then 1 else v

/-- The `{state, changed}` result of `mergeState`. -/
structure MergeResult where
  state : BoardState
  changed : Bool
deriving DecidableEq, Repr

/-- `mergeState(local, remote)` from `merge.js`: merge the phase, union cards
and votes by id through the per-entity LWW rules, take the higher version,
and report whether anything changed. -/
def mergeState (l r : BoardState) : MergeResult :=
  let mergedPhase := mergePhase l.phase r.phase
  let ch0 := decide (mergedPhase ≠ l.phase)
  let cardsRes := mergeInto Card.id picksRemoteCard (buildMap Card.id l.cards) ch0 r.cards
  let votesRes := mergeInto Vote.id picksRemoteVote (buildMap Vote.id l.votes) cardsRes.2 r.votes
  let mergedVersion := max (versionOr1 l.version) (versionOr1 r.version)
  { state :=
      { version := mergedVersion
        phase := mergedPhase
        cards := mapValues cardsRes.1
        votes := mapValues votesRes.1 }
    changed := votesRes.2 }

/-! ## dedup.js -/

/-- `isDuplicate(opId)` from `dedup.js`, with the seen-set made explicit:
a falsy `opId` (missing or empty) is never deduplicated and never recorded;
otherwise return `true` if already seen, else record it and return `false`.
The result pairs the returned boolean with the updated seen-set. -/
def isDuplicate (seen : List String) (opId : Option String) : Bool × List String :=
  match opId with
  | none => (false, seen)
  | some i =>
    if i = "" then (false, seen)
    else if i ∈ seen then (true, seen)
    else (false, i :: seen)

/-- `markSeen(opId)` from `dedup.js`: record a truthy `opId` (a JS `Set`, so
re-adding an element is a no-op); a falsy `opId` records nothing. -/
def markSeen (seen : List String) (opId : Option String) : List String :=
  match opId with
  | none => seen
  | some i =>
    if i = "" then seen
    else if i ∈ seen then seen
    else i :: seen

/-! ## validation.js

Wire operations are JSON objects; each field may be absent.  `WireOp` carries
every field the `cardOp` / `vote` / `phaseChanged` validators look at. -/

/-- A wire operation frame (`cardOp`, `vote` or `phaseChanged`). -/
structure WireOp where
  type : String
  opId : Option String := none
  phase : Option String := none
  senderId : Option String := none
  cardId : Option String := none
  authorId : Option String := none
  voterId : Option String := none
  rev : Option Int := none
  action : Option String := none
  column : Option String := none
  text : Option String := none
  isDeleted : Option Bool := none
deriving DecidableEq, Repr

/-- JS truthiness of a possibly-absent string field: present and non-empty. -/
def truthy (o : Option String) : Bool :=
  match o with
  | none => false
  | some s => decide (s ≠ "")

/-- `isValidPhaseValue` from `validation.js`. -/
def isValidPhaseValue (phase : Option String) : Bool :=
  phase == some "forming" || phase == some "reviewing"

/-- `shouldRejectForPhase(messagePhase, localPhase)` from `validation.js`:
reject when the local phase is `reviewing` and the incoming one is `forming`. -/
def shouldRejectForPhase (messagePhase : Option String) (localPhase : Phase) : Bool :=
  decide (localPhase = .reviewing) && messagePhase == some "forming"

/-- `validateCommonOp` from `validation.js`. -/
def validateCommonOp (op : WireOp) (localPhase : Phase) : Bool :=
  isValidPhaseValue op.phase && !shouldRejectForPhase op.phase localPhase

/-- `op.rev` must be a finite number `≥ 1` (`!isFiniteNumber(op.rev) ||
op.rev < 1` rejects). -/
def revAtLeastOne (rev : Option Int) : Bool :=
  match rev with
  | some r => decide (1 ≤ r)
  | none => false

/-- `getCardRev(state, cardId)` from `validation.js`: the stored revision of
the card with this id, if any. -/
def getCardRev (state : BoardState) (cardId : Option String) : Option Int :=
  (state.cards.find? (fun c => some c.id == cardId)).map (·.rev)

/-- `getVoteRev(state, cardId, voterId)` from `validation.js`: the stored
revision of the vote with id `cardId + ":" + voterId`, if any.  (Only reached
by the validator once both fields are known non-falsy strings.) -/
def getVoteRev (state : BoardState) (cardId voterId : Option String) : Option Int :=
  match cardId, voterId with
  | some c, some v => (state.votes.find? (fun vt => vt.id == c ++ ":" ++ v)).map (·.rev)
  | _, _ => none

/-- `existingRev !== null && op.rev < existingRev` rejects; stated positively. -/
def revNotStale (existingRev rev : Option Int) : Bool :=
  match existingRev, rev with
  | some er, some r => decide (er ≤ r)
  | _, _ => true

/-- `validateIncomingCardOp(op, state, localPhase)` from `validation.js`.
Each early `return false` of the source is one conjunct. -/
def validateIncomingCardOp (op : WireOp) (state : BoardState) (localPhase : Phase) : Bool :=
  (op.type == "cardOp") && truthy op.opId &&
  validateCommonOp op localPhase &&
  truthy op.senderId &&
  truthy op.cardId && truthy op.authorId &&
  revAtLeastOne op.rev &&
  (op.action == some "create" || op.action == some "edit" || op.action == some "delete") &&
  !((op.action == some "create") && (!truthy op.column || !truthy op.text)) &&
  (op.authorId == op.senderId) &&
  revNotStale (getCardRev state op.cardId) op.rev

/-- `validateIncomingVoteOp(op, state, localPhase)` from `validation.js`. -/
def validateIncomingVoteOp (op : WireOp) (state : BoardState) (localPhase : Phase) : Bool :=
  (op.type == "vote") && truthy op.opId &&
  validateCommonOp op localPhase &&
  truthy op.senderId &&
  truthy op.cardId && truthy op.voterId &&
  revAtLeastOne op.rev &&
  (op.action == some "add" || op.action == some "remove") &&
  (op.voterId == op.senderId) &&
  revNotStale (getVoteRev state op.cardId op.voterId) op.rev

/-- `validateIncomingPhaseChange(op, localPhase)` from `validation.js`. -/
def validateIncomingPhaseChange (op : WireOp) (localPhase : Phase) : Bool :=
  (op.type == "phaseChanged") && truthy op.opId &&
  validateCommonOp op localPhase &&
  truthy op.senderId

/-! ## operations.js -/

/-- The `findIndex` / in-place-update / `push` pattern of `applyCardOp`:
replace the first card whose id equals `op.cardId` by its merge with the
incoming card, or append the incoming card if no card matches. -/
def upsertCard (cards : List Card) (cardId : Option String) (nc : Card) : List Card :=
  match cards with
  | [] => [nc]
  | c :: rest => if some c.id == cardId then mergeCard c nc :: rest
                 else c :: upsertCard rest cardId nc

/-- Same pattern for votes, keyed by the concrete vote id string. -/
def upsertVote (votes : List Vote) (voteId : String) (nv : Vote) : List Vote :=
  match votes with
  | [] => [nv]
  | v :: rest => if v.id == voteId then mergeVote v nv :: rest
                 else v :: upsertVote rest voteId nv

/-- `applyCardOp(state, op)` from `operations.js`: build the next card version
(`isDeleted` from the explicit flag if boolean, else from `action ===
'delete'`) and upsert it through `mergeCard`.  Fields that validation
guarantees present are defaulted at the JS/typed boundary. -/
def applyCardOp (state : BoardState) (op : WireOp) : BoardState :=
  let isDel := match op.isDeleted with
    | some b => b
    | none => op.action == some "delete"
  let nextCard : Card :=
    { id := op.cardId.getD ""
      column := op.column.getD ""
      text := op.text.getD ""
      authorId := op.authorId.getD ""
      rev := op.rev.getD 0
      isDeleted := isDel }
  { state with cards := upsertCard state.cards op.cardId nextCard }

/-- `applyVote(state, op)` from `operations.js`. -/
def applyVote (state : BoardState) (op : WireOp) : BoardState :=
  let isDel := match op.isDeleted with
    | some b => b
    | none => op.action == some "remove"
  let voteId := op.cardId.getD "" ++ ":" ++ op.voterId.getD ""
  let nextVote : Vote :=
    { id := voteId
      cardId := op.cardId.getD ""
      voterId := op.voterId.getD ""
      rev := op.rev.getD 0
      isDeleted := isDel }
  { state with votes := upsertVote state.votes voteId nextVote }

/-! ## app.js — incoming-message pipeline

`onMessage` for a `cardOp` (resp. `vote`): validate against the current state
and phase; then `message.opId && dedup.isDuplicate(message.opId)` (the dedup
set records on first sight); then buffer if the sync window is open;
otherwise apply and persist. -/

/-- The client-side mutable context the pipeline touches. -/
structure ClientCtx where
  state : BoardState
  seen : List String
  buffered : List WireOp
deriving DecidableEq, Repr

/-- The `cardOp` branch of `onMessage` in `app.js`. -/
def processIncomingCardOp (ctx : ClientCtx) (syncing : Bool) (op : WireOp) : ClientCtx :=
  if validateIncomingCardOp op ctx.state ctx.state.phase = false then ctx
  else
    let dup := if truthy op.opId then isDuplicate ctx.seen op.opId else (false, ctx.seen)
    if dup.1 then { ctx with seen := dup.2 }
    else if syncing then { ctx with seen := dup.2, buffered := ctx.buffered ++ [op] }
    else { ctx with state := applyCardOp ctx.state op, seen := dup.2 }

/-- The `vote` branch of `onMessage` in `app.js`. -/
def processIncomingVoteOp (ctx : ClientCtx) (syncing : Bool) (op : WireOp) : ClientCtx :=
  if validateIncomingVoteOp op ctx.state ctx.state.phase = false then ctx
  else
    let dup := if truthy op.opId then isDuplicate ctx.seen op.opId else (false, ctx.seen)
    if dup.1 then { ctx with seen := dup.2 }
    else if syncing then { ctx with seen := dup.2, buffered := ctx.buffered ++ [op] }
    else { ctx with state := applyVote ctx.state op, seen := dup.2 }

/-! ## sync.js — the sync window -/

/-- The sync manager's window state: the `isSyncing` flag, the collected
`receivedStates`, and the `bufferedOps`. -/
structure SyncWindow where
  isSyncing : Bool
  receivedStates : List BoardState
  bufferedOps : List WireOp
deriving DecidableEq, Repr

/-- The fold in `completeSync`: thread the merged state through every
received snapshot and accumulate whether any fold reported a change
(`if (result.changed) changed = true`). -/
def syncFold (init : BoardState) (rs : List BoardState) : BoardState × Bool :=
  rs.foldl
    (fun acc r =>
      let res := mergeState acc.1 r
      (res.state, acc.2 || res.changed))
    (init, false)

/-- The observable outcome of `completeSync`: the window state it leaves
behind and the callback invocations it makes, in order. -/
structure CompleteSyncResult where
  window : SyncWindow
  onStateReadyCalls : List BoardState
  onBroadcastStateCalls : List BoardState
  onBufferedOpsCalls : List (List WireOp)
deriving DecidableEq, Repr

/-- `completeSync()` from `sync.js`: bail out if not syncing; otherwise fold
all received snapshots into the local state (`getLocalState() ||
createEmptyState()`), always report the final state via `onStateReady`,
invoke `onBroadcastState` once iff a fold changed something and at least one
snapshot arrived, hand the buffered ops to `onBufferedOps` (only when there
are any), and clear the window. -/
def completeSync (localState : Option BoardState) (w : SyncWindow) : CompleteSyncResult :=
  if w.isSyncing = false then
    { window := w, onStateReadyCalls := [], onBroadcastStateCalls := [], onBufferedOpsCalls := [] }
  else
    let init := localState.getD createEmptyState
    let folded := syncFold init w.receivedStates
    { window := { isSyncing := false, receivedStates := [], bufferedOps := [] }
      onStateReadyCalls := [folded.1]
      onBroadcastStateCalls :=
        if folded.2 && decide (0 < w.receivedStates.length) then [folded.1] else []
      onBufferedOpsCalls :=
        if 0 < w.bufferedOps.length then [w.bufferedOps] else [] }

/-! ## BoardHub.cs — the relay

A participant session is its `IsReady` flag (the socket handle and
`LastActivity` play no role in the routing logic modelled here); a board is
its id-keyed session registry, modelled as an association list. -/

/-- A server-to-client frame.  `participantsUpdate` carries the optional
`syncForClientId` JSON field (`none` = the field is absent from the frame). -/
inductive Frame where
  | welcome (participantCount readyCount : Nat)
  | participantsUpdate (participantCount readyCount : Nat) (syncForClientId : Option String)
  | errorFrame (message : String)
deriving DecidableEq, Repr

/-- `Participants.Values.Count(p => p.IsReady)`. -/
def countReady (board : List (String × Bool)) : Nat :=
  (board.filter (·.2 = true)).length

/-- `MaxParticipantsPerBoard = 20`. -/
def maxParticipantsPerBoard : Nat := 20

/-- The outcome of a connection attempt: the updated registry, the frames
sent to the connecting client, and the frames broadcast to other sessions
(recipient, frame). -/
structure JoinOutcome where
  board : List (String × Bool)
  toJoiner : List Frame
  broadcasts : List (String × Frame)
  accepted : Bool
deriving DecidableEq, Repr

/-- The join path of `HandleConnection` in `BoardHub.cs`: reject at capacity,
reject a duplicate `clientId` (`TryAdd` fails), otherwise register the
session (IsReady = false), send `welcome{participantCount, readyCount}`
(counts taken after registration), and broadcast `participantsUpdate` to
every session except the joiner.  The `participantsUpdate` object built by
`BroadcastParticipantsUpdate` has no `syncForClientId` property. -/
def handleJoin (board : List (String × Bool)) (clientId : String) : JoinOutcome :=
  if maxParticipantsPerBoard ≤ board.length then
    { board := board
      toJoiner := [.errorFrame "Board is full (max 20 participants)"]
      broadcasts := []
      accepted := false }
  else if (board.find? (fun p => decide (p.1 = clientId))).isSome then
    { board := board
      toJoiner := [.errorFrame "Client ID already connected to this board"]
      broadcasts := []
      accepted := false }
  else
    let registered := board ++ [(clientId, false)]
    { board := registered
      toJoiner := [.welcome registered.length (countReady registered)]
      broadcasts :=
        (registered.filter (fun p => decide (p.1 ≠ clientId))).map
          (fun p => (p.1, Frame.participantsUpdate registered.length (countReady registered) none))
      accepted := true }

/-- A parsed `setReady` JSON frame, as `HandleSetReady` sees it: the relay
reads the `ready` property; the client and the protocol document use the
`isReady` property.  `none` = the property is absent. -/
structure SetReadyMsg where
  ready : Option Bool := none
  isReady : Option Bool := none
deriving DecidableEq, Repr

/-- `HandleSetReady` in `BoardHub.cs`: return silently unless the frame has a
`ready` property; otherwise set the sender's `IsReady` and broadcast
`participantsUpdate` (again without `syncForClientId`) to everyone except the
sender. -/
def handleSetReady (board : List (String × Bool)) (clientId : String) (msg : SetReadyMsg) :
    List (String × Bool) × List (String × Frame) :=
  match msg.ready with
  | none => (board, [])
  | some b =>
    if (board.find? (fun p => decide (p.1 = clientId))).isSome then
      let updated := board.map (fun p => if p.1 = clientId then (p.1, b) else p)
      (updated,
        (updated.filter (fun p => decide (p.1 ≠ clientId))).map
          (fun p => (p.1, Frame.participantsUpdate updated.length (countReady updated) none)))
    else (board, [])

/-- `BroadcastMessage` in `BoardHub.cs`, used for `cardOp`/`vote`/
`phaseChanged`: deliver the received frame, byte-for-byte unmodified, to
every session whose id differs from the sender's. -/
def broadcastMessage (board : List (String × Bool)) (senderId : String) (msg : WireOp) :
    List (String × WireOp) :=
  (board.filter (fun p => decide (p.1 ≠ senderId))).map (fun p => (p.1, msg))

/-! ## Lemmas about the JS-`Map` model -/

/-- Find an entity by key in a plain entity list (the semantics of
`state.cards.find(c => c.id === k)`). -/
def lookupEnt (key : α → String) (l : List α) (k : String) : Option α :=
  l.find? (fun c => decide (key c = k))

theorem mapGet_nil (k : String) : mapGet ([] : List (String × α)) k = none := rfl

theorem mapGet_cons (p : String × α) (m : List (String × α)) (k : String) :
    mapGet (p :: m) k = if p.1 = k then some p.2 else mapGet m k := by
  by_cases h : p.1 = k <;> simp [mapGet, List.find?_cons, h]

theorem mapGet_mapSet_self (m : List (String × α)) (k : String) (v : α) :
    mapGet (mapSet m k v) k = some v := by
  induction m with
  | nil => simp [mapSet, mapGet_cons]
  | cons p rest ih =>
    by_cases h : p.1 = k
    · simp [mapSet, h, mapGet_cons]
    · simp [mapSet, h, mapGet_cons, ih]

theorem mapGet_mapSet_ne (m : List (String × α)) (k k' : String) (v : α) (h : k ≠ k') :
    mapGet (mapSet m k v) k' = mapGet m k' := by
  induction m with
  | nil => simp [mapSet, mapGet_cons, h]
  | cons p rest ih =>
    by_cases hp : p.1 = k
    · simp [mapSet, hp, mapGet_cons, h]
    · simp [mapSet, hp, mapGet_cons, ih]

theorem mem_keys_mapSet (m : List (String × α)) (k : String) (v : α) (x : String) :
    x ∈ (mapSet m k v).map Prod.fst ↔ x = k ∨ x ∈ m.map Prod.fst := by
  induction m with
  | nil => simp [mapSet]
  | cons p rest ih =>
    by_cases hp : p.1 = k
    · subst hp
      have hm : mapSet (p :: rest) p.1 v = (p.1, v) :: rest := by
        simp [mapSet]
      rw [hm]
      simp only [List.map_cons, List.mem_cons]
      tauto
    · simp only [mapSet, if_neg hp, List.map_cons, List.mem_cons, ih]
      tauto

theorem nodup_keys_mapSet (m : List (String × α)) (k : String) (v : α)
    (h : (m.map Prod.fst).Nodup) : ((mapSet m k v).map Prod.fst).Nodup := by
  induction m with
  | nil => simp [mapSet]
  | cons p rest ih =>
    simp only [List.map_cons, List.nodup_cons] at h
    by_cases hp : p.1 = k
    · simp only [mapSet, if_pos hp, List.map_cons, List.nodup_cons]
      exact ⟨hp ▸ h.1, h.2⟩
    · simp only [mapSet, if_neg hp, List.map_cons, List.nodup_cons]
      refine ⟨fun hmem => ?_, ih h.2⟩
      rcases (mem_keys_mapSet rest k v p.1).mp hmem with h1 | h1
      · exact hp h1
      · exact h.1 h1

theorem mem_mapSet (m : List (String × α)) (k : String) (v : α) (q : String × α)
    (h : q ∈ mapSet m k v) : q = (k, v) ∨ q ∈ m := by
  induction m with
  | nil => simp [mapSet] at h; simp [h]
  | cons p rest ih =>
    by_cases hp : p.1 = k
    · simp [mapSet, hp] at h
      rcases h with h | h
      · exact Or.inl h
      · exact Or.inr (List.mem_cons_of_mem _ h)
    · simp only [mapSet, if_neg hp, List.mem_cons] at h
      rcases h with h | h
      · exact Or.inr (h ▸ List.mem_cons_self _ _)
      · rcases ih h with h1 | h1
        · exact Or.inl h1
        · exact Or.inr (List.mem_cons_of_mem _ h1)

/-- Well-formedness of a JS `Map` keyed by entity ids: keys are distinct and
every stored value's id is its key. -/
def WFmap (key : α → String) (m : List (String × α)) : Prop :=
  (m.map Prod.fst).Nodup ∧ ∀ p ∈ m, key p.2 = p.1

theorem WFmap_nil (key : α → String) : WFmap key ([] : List (String × α)) := by
  constructor <;> simp

theorem WFmap_mapSet (key : α → String) (m : List (String × α)) (k : String) (v : α)
    (h : WFmap key m) (hv : key v = k) : WFmap key (mapSet m k v) := by
  refine ⟨nodup_keys_mapSet m k v h.1, fun p hp => ?_⟩
  rcases mem_mapSet m k v p hp with h1 | h1
  · subst h1; exact hv
  · exact h.2 p h1

theorem WFmap_foldl_build (key : α → String) (l : List α) (m : List (String × α))
    (h : WFmap key m) : WFmap key (l.foldl (fun m c => mapSet m (key c) c) m) := by
  induction l generalizing m with
  | nil => exact h
  | cons c rest ih =>
    simp only [List.foldl_cons]
    exact ih _ (WFmap_mapSet key m (key c) c h rfl)

theorem WFmap_buildMap (key : α → String) (l : List α) : WFmap key (buildMap key l) :=
  WFmap_foldl_build key l [] (WFmap_nil key)

theorem mergeInto_cons (key : α → String) (picks : α → α → Bool)
    (m : List (String × α)) (ch : Bool) (rc : α) (rest : List α) :
    mergeInto key picks m ch (rc :: rest) =
      mergeInto key picks (mergeStep key picks (m, ch) rc).1
        (mergeStep key picks (m, ch) rc).2 rest := by
  simp [mergeInto]

theorem WFmap_mergeInto (key : α → String) (picks : α → α → Bool)
    (m : List (String × α)) (ch : Bool) (rs : List α)
    (h : WFmap key m) : WFmap key (mergeInto key picks m ch rs).1 := by
  induction rs generalizing m ch with
  | nil => exact h
  | cons rc rest ih =>
    rw [mergeInto_cons]
    apply ih
    unfold mergeStep
    cases hg : mapGet m (key rc) with
    | none => exact WFmap_mapSet key m (key rc) rc h rfl
    | some lc =>
      by_cases hp : picks lc rc
      · simp only [hg, hp, if_true]
        exact WFmap_mapSet key m (key rc) rc h rfl
      · simp only [hg, hp, if_false]
        exact h

theorem lookupEnt_nil (key : α → String) (k : String) :
    lookupEnt key ([] : List α) k = none := rfl

theorem lookupEnt_cons (key : α → String) (c : α) (l : List α) (k : String) :
    lookupEnt key (c :: l) k = if key c = k then some c else lookupEnt key l k := by
  by_cases h : key c = k <;> simp [lookupEnt, List.find?_cons, h]

theorem lookupEnt_eq_none (key : α → String) (l : List α) (k : String)
    (h : k ∉ l.map key) : lookupEnt key l k = none := by
  induction l with
  | nil => rfl
  | cons c rest ih =>
    simp only [List.map_cons, List.mem_cons, not_or] at h
    rw [lookupEnt_cons, if_neg (fun hc => h.1 hc.symm)]
    exact ih h.2

theorem lookupEnt_self (key : α → String) (l : List α) (c : α)
    (hnd : (l.map key).Nodup) (hc : c ∈ l) : lookupEnt key l (key c) = some c := by
  induction l with
  | nil => cases hc
  | cons d rest ih =>
    simp only [List.map_cons, List.nodup_cons] at hnd
    rcases List.mem_cons.mp hc with h | h
    · subst h
      rw [lookupEnt_cons, if_pos rfl]
    · rw [lookupEnt_cons]
      by_cases hd : key d = key c
      · exact absurd (hd ▸ List.mem_map_of_mem key h) hnd.1
      · rw [if_neg hd]
        exact ih hnd.2 h

theorem lookupEnt_mapValues (key : α → String) (m : List (String × α)) (k : String)
    (h : WFmap key m) : lookupEnt key (mapValues m) k = mapGet m k := by
  induction m with
  | nil => rfl
  | cons p rest ih =>
    have hkey : key p.2 = p.1 := h.2 p (List.mem_cons_self _ _)
    have hrest : WFmap key rest :=
      ⟨(List.nodup_cons.mp h.1).2, fun q hq => h.2 q (List.mem_cons_of_mem _ hq)⟩
    simp only [mapValues, List.map_cons, lookupEnt_cons, mapGet_cons, hkey]
    by_cases hk : p.1 = k
    · simp [hk]
    · simp only [hk, if_false]
      exact ih hrest

theorem mapGet_foldl_build (key : α → String) (l : List α) (m : List (String × α))
    (hd : ∀ c ∈ l, mapGet m (key c) = none) (hnd : (l.map key).Nodup) (k : String) :
    mapGet (l.foldl (fun m c => mapSet m (key c) c) m) k =
      match lookupEnt key l k with
      | some c => some c
      | none => mapGet m k := by
  induction l generalizing m with
  | nil => simp [lookupEnt_nil]
  | cons c rest ih =>
    simp only [List.map_cons, List.nodup_cons] at hnd
    simp only [List.foldl_cons]
    have hd' : ∀ c' ∈ rest, mapGet (mapSet m (key c) c) (key c') = none := by
      intro c' hc'
      rw [mapGet_mapSet_ne _ _ _ _
        (fun he => hnd.1 (by rw [he]; exact List.mem_map_of_mem key hc'))]
      exact hd c' (List.mem_cons_of_mem _ hc')
    rw [ih (mapSet m (key c) c) hd' hnd.2, lookupEnt_cons]
    by_cases hk : key c = k
    · subst hk
      rw [lookupEnt_eq_none key rest (key c) hnd.1, if_pos rfl, mapGet_mapSet_self]
    · rw [if_neg hk]
      cases lookupEnt key rest k with
      | some c' => rfl
      | none => simp only [mapGet_mapSet_ne _ _ _ _ hk]

theorem mapGet_buildMap (key : α → String) (l : List α) (hnd : (l.map key).Nodup)
    (k : String) : mapGet (buildMap key l) k = lookupEnt key l k := by
  have h := mapGet_foldl_build key l [] (fun c _ => rfl) hnd k
  rw [buildMap, h]
  cases lookupEnt key l k <;> rfl

/-- The central characterisation of `mergeState`'s per-entity loop: after
folding the remote entities into the local map, the entry at key `k` is the
per-entity merge of the local and remote entries at `k` (local if only local
has it, remote if only remote has it). -/
theorem mergeInto_get (key : α → String) (picks : α → α → Bool) (rs : List α)
    (hnd : (rs.map key).Nodup) (m : List (String × α)) (ch : Bool) (k : String) :
    mapGet (mergeInto key picks m ch rs).1 k =
      match mapGet m k, lookupEnt key rs k with
      | some a, some b => some (if picks a b then b else a)
      | some a, none => some a
      | none, some b => some b
      | none, none => none := by
  induction rs generalizing m ch with
  | nil =>
    simp only [mergeInto, List.foldl_nil, lookupEnt_nil]
    cases mapGet m k <;> rfl
  | cons rc rest ih =>
    simp only [List.map_cons, List.nodup_cons] at hnd
    rw [mergeInto_cons, ih hnd.2]
    by_cases hk : key rc = k
    · subst hk
      rw [lookupEnt_eq_none key rest (key rc) hnd.1, lookupEnt_cons, if_pos rfl]
      cases hg : mapGet m (key rc) with
      | none =>
        have hstep : (mergeStep key picks (m, ch) rc).1 = mapSet m (key rc) rc := by
          unfold mergeStep
          rw [hg]
        rw [hstep, mapGet_mapSet_self]
      | some lc =>
        by_cases hp : picks lc rc
        · have hstep : (mergeStep key picks (m, ch) rc).1 = mapSet m (key rc) rc := by
            unfold mergeStep
            rw [hg]
            simp [hp]
          rw [hstep, mapGet_mapSet_self]
          simp [hp]
        · have hstep : (mergeStep key picks (m, ch) rc).1 = m := by
            unfold mergeStep
            rw [hg]
            simp [hp]
          rw [hstep, hg]
          simp [hp]
    · rw [lookupEnt_cons, if_neg hk]
      have hstep : mapGet (mergeStep key picks (m, ch) rc).1 k = mapGet m k := by
        unfold mergeStep
        cases hg : mapGet m (key rc) with
        | none => exact mapGet_mapSet_ne m (key rc) k rc hk
        | some lc =>
          by_cases hp : picks lc rc
          · simp only [hp, if_true]
            exact mapGet_mapSet_ne m (key rc) k rc hk
          · simp [hp]
      rw [hstep]

/-- If every remote entity is already stored under its own key and the merge
never picks the remote copy of an entity over itself, the loop is a no-op. -/
theorem mergeInto_fixed (key : α → String) (picks : α → α → Bool)
    (m : List (String × α)) (ch : Bool) (rs : List α)
    (h1 : ∀ rc ∈ rs, mapGet m (key rc) = some rc)
    (h2 : ∀ rc ∈ rs, picks rc rc = false) :
    mergeInto key picks m ch rs = (m, ch) := by
  induction rs with
  | nil => rfl
  | cons rc rest ih =>
    rw [mergeInto_cons]
    have hstep : mergeStep key picks (m, ch) rc = (m, ch) := by
      unfold mergeStep
      simp only [h1 rc (List.mem_cons_self _ _)]
      simp [h2 rc (List.mem_cons_self _ _)]
    rw [hstep]
    exact ih (fun rc' h => h1 rc' (List.mem_cons_of_mem _ h))
      (fun rc' h => h2 rc' (List.mem_cons_of_mem _ h))

theorem mapSet_eq_append (m : List (String × α)) (k : String) (v : α)
    (h : mapGet m k = none) : mapSet m k v = m ++ [(k, v)] := by
  induction m with
  | nil => rfl
  | cons p rest ih =>
    rw [mapGet_cons] at h
    by_cases hp : p.1 = k
    · simp [hp] at h
    · simp only [hp, if_false] at h
      simp [mapSet, hp, ih h]

theorem foldl_build_eq_append (key : α → String) (l : List α) (m : List (String × α))
    (hd : ∀ c ∈ l, mapGet m (key c) = none) (hnd : (l.map key).Nodup) :
    l.foldl (fun m c => mapSet m (key c) c) m = m ++ l.map (fun c => (key c, c)) := by
  induction l generalizing m with
  | nil => simp
  | cons c rest ih =>
    simp only [List.map_cons, List.nodup_cons] at hnd
    simp only [List.foldl_cons]
    rw [mapSet_eq_append m (key c) c (hd c (List.mem_cons_self _ _))]
    have hd' : ∀ c' ∈ rest, mapGet (m ++ [(key c, c)]) (key c') = none := by
      intro c' hc'
      rw [← mapSet_eq_append m (key c) c (hd c (List.mem_cons_self _ _))]
      rw [mapGet_mapSet_ne _ _ _ _
        (fun he => hnd.1 (by rw [he]; exact List.mem_map_of_mem key hc'))]
      exact hd c' (List.mem_cons_of_mem _ hc')
    rw [ih (m ++ [(key c, c)]) hd' hnd.2]
    simp

theorem mapValues_buildMap (key : α → String) (l : List α)
    (hnd : (l.map key).Nodup) : mapValues (buildMap key l) = l := by
  rw [buildMap, foldl_build_eq_append key l [] (fun c _ => rfl) hnd]
  simp only [List.nil_append, mapValues, List.map_map]
  have hcomp : ((fun (x : String × α) => x.2) ∘ fun c => (key c, c)) = fun c => c := rfl
  rw [hcomp]
  exact List.map_id l

/-! ## Merge-level lemmas -/

theorem charListLt_irrefl (l : List Char) : charListLt l l = false := by
  induction l with
  | nil => rfl
  | cons a as ih => simp [charListLt, lt_irrefl, ih]

theorem strLt_irrefl (s : String) : strLt s s = false :=
  charListLt_irrefl s.data

theorem charListLt_asymm (a b : List Char) (h : charListLt a b = true) :
    charListLt b a = false := by
  induction a generalizing b with
  | nil =>
    cases b with
    | nil => simp [charListLt] at h
    | cons y ys => simp [charListLt]
  | cons x xs ih =>
    cases b with
    | nil => simp [charListLt] at h
    | cons y ys =>
      rcases lt_trichotomy x y with hxy | hxy | hxy
      · simp [charListLt, hxy, asymm hxy]
      · subst hxy
        simp only [charListLt, lt_irrefl, if_false] at h ⊢
        exact ih ys h
      · simp [charListLt, hxy, asymm hxy] at h

theorem strLt_asymm (a b : String) (h : strLt a b = true) : strLt b a = false :=
  charListLt_asymm a.data b.data h

theorem charListLt_eq (a b : List Char) (h1 : charListLt a b = false)
    (h2 : charListLt b a = false) : a = b := by
  induction a generalizing b with
  | nil =>
    cases b with
    | nil => rfl
    | cons y ys => simp [charListLt] at h1
  | cons x xs ih =>
    cases b with
    | nil => simp [charListLt] at h2
    | cons y ys =>
      rcases lt_trichotomy x y with hxy | hxy | hxy
      · simp [charListLt, hxy] at h1
      · subst hxy
        simp only [charListLt, lt_irrefl, if_false] at h1 h2
        rw [ih ys h1 h2]
      · simp [charListLt, hxy] at h2

theorem strLt_eq (a b : String) (h1 : strLt a b = false) (h2 : strLt b a = false) :
    a = b :=
  congrArg String.mk (charListLt_eq a.data b.data h1 h2)

theorem picksRemoteCard_self (c : Card) : picksRemoteCard c c = false := by
  simp [picksRemoteCard, strLt_irrefl]

theorem picksRemoteVote_self (v : Vote) : picksRemoteVote v v = false := by
  simp [picksRemoteVote, strLt_irrefl]

theorem mergePhase_self (p : Phase) : mergePhase p p = p := by
  cases p <;> rfl

theorem mergePhase_comm (l r : Phase) : mergePhase l r = mergePhase r l := by
  cases l <;> cases r <;> rfl

/-- `mergeCard` is symmetric whenever entities that tie on `(rev, authorId)`
agree on every other content field (they may still differ in `isDeleted`). -/
theorem mergeCard_comm (a b : Card)
    (h : a.rev = b.rev → a.authorId = b.authorId →
      a.id = b.id ∧ a.column = b.column ∧ a.text = b.text) :
    mergeCard a b = mergeCard b a := by
  rcases lt_trichotomy a.rev b.rev with hr | hr | hr
  · simp [mergeCard, picksRemoteCard, hr, asymm hr]
  · by_cases hs : strLt a.authorId b.authorId = true
    · simp [mergeCard, picksRemoteCard, hr, lt_irrefl, hs, strLt_asymm _ _ hs]
    · by_cases hs2 : strLt b.authorId a.authorId = true
      · simp [mergeCard, picksRemoteCard, hr, lt_irrefl, hs, hs2]
      · have ha : a.authorId = b.authorId :=
          strLt_eq _ _ (Bool.eq_false_iff.mpr hs) (Bool.eq_false_iff.mpr hs2)
        obtain ⟨hid, hcol, htext⟩ := h hr ha
        cases hda : a.isDeleted <;> cases hdb : b.isDeleted
        · have hab : a = b := by
            cases a; cases b; simp_all
          simp [hab]
        · simp [mergeCard, picksRemoteCard, hr, lt_irrefl, hs, hs2, hda, hdb]
        · simp [mergeCard, picksRemoteCard, hr, lt_irrefl, hs, hs2, hda, hdb]
        · have hab : a = b := by
            cases a; cases b; simp_all
          simp [hab]
  · simp [mergeCard, picksRemoteCard, hr, asymm hr]

/-- `mergeVote` analogue of `mergeCard_comm`. -/
theorem mergeVote_comm (a b : Vote)
    (h : a.rev = b.rev → a.voterId = b.voterId →
      a.id = b.id ∧ a.cardId = b.cardId) :
    mergeVote a b = mergeVote b a := by
  rcases lt_trichotomy a.rev b.rev with hr | hr | hr
  · simp [mergeVote, picksRemoteVote, hr, asymm hr]
  · by_cases hs : strLt a.voterId b.voterId = true
    · simp [mergeVote, picksRemoteVote, hr, lt_irrefl, hs, strLt_asymm _ _ hs]
    · by_cases hs2 : strLt b.voterId a.voterId = true
      · simp [mergeVote, picksRemoteVote, hr, lt_irrefl, hs, hs2]
      · have ha : a.voterId = b.voterId :=
          strLt_eq _ _ (Bool.eq_false_iff.mpr hs) (Bool.eq_false_iff.mpr hs2)
        obtain ⟨hid, hcard⟩ := h hr ha
        cases hda : a.isDeleted <;> cases hdb : b.isDeleted
        · have hab : a = b := by
            cases a; cases b; simp_all
          simp [hab]
        · simp [mergeVote, picksRemoteVote, hr, lt_irrefl, hs, hs2, hda, hdb]
        · simp [mergeVote, picksRemoteVote, hr, lt_irrefl, hs, hs2, hda, hdb]
        · have hab : a = b := by
            cases a; cases b; simp_all
          simp [hab]
  · simp [mergeVote, picksRemoteVote, hr, asymm hr]

/-- Per-id characterisation of the card component of `mergeState`. -/
theorem mergeState_cards_lookup (A B : BoardState)
    (hA : (A.cards.map Card.id).Nodup) (hB : (B.cards.map Card.id).Nodup) (k : String) :
    lookupEnt Card.id (mergeState A B).state.cards k =
      match lookupEnt Card.id A.cards k, lookupEnt Card.id B.cards k with
      | some a, some b => some (mergeCard a b)
      | some a, none => some a
      | none, some b => some b
      | none, none => none := by
  have hwf := WFmap_mergeInto Card.id picksRemoteCard (buildMap Card.id A.cards)
    (decide (mergePhase A.phase B.phase ≠ A.phase)) B.cards (WFmap_buildMap Card.id A.cards)
  simp only [mergeState]
  rw [lookupEnt_mapValues Card.id _ k hwf, mergeInto_get Card.id picksRemoteCard B.cards hB,
    mapGet_buildMap Card.id A.cards hA]
  cases lookupEnt Card.id A.cards k <;> cases lookupEnt Card.id B.cards k <;> rfl

/-- Per-id characterisation of the vote component of `mergeState`. -/
theorem mergeState_votes_lookup (A B : BoardState)
    (hA : (A.votes.map Vote.id).Nodup) (hB : (B.votes.map Vote.id).Nodup) (k : String) :
    lookupEnt Vote.id (mergeState A B).state.votes k =
      match lookupEnt Vote.id A.votes k, lookupEnt Vote.id B.votes k with
      | some a, some b => some (mergeVote a b)
      | some a, none => some a
      | none, some b => some b
      | none, none => none := by
  have hwf := WFmap_mergeInto Vote.id picksRemoteVote (buildMap Vote.id A.votes)
    (mergeInto Card.id picksRemoteCard (buildMap Card.id A.cards)
      (decide (mergePhase A.phase B.phase ≠ A.phase)) B.cards).2 B.votes
    (WFmap_buildMap Vote.id A.votes)
  simp only [mergeState]
  rw [lookupEnt_mapValues Vote.id _ k hwf, mergeInto_get Vote.id picksRemoteVote B.votes hB,
    mapGet_buildMap Vote.id A.votes hA]
  cases lookupEnt Vote.id A.votes k <;> cases lookupEnt Vote.id B.votes k <;> rfl

theorem lookupEnt_mem_and_key (key : α → String) (l : List α) (k : String) (c : α)
    (h : lookupEnt key l k = some c) : c ∈ l ∧ key c = k := by
  refine ⟨List.mem_of_find?_eq_some h, ?_⟩
  have := List.find?_some h
  simpa using this

/-! ## C1 — commutativity of `mergeState` -/

/-- C1, counterexample: two states that each hold a card with the same id,
the same rev 1 and the same author `"x"` but different text.  Each merge
direction keeps its own local copy, so the two merged states disagree on the
card's content (a content difference, not an array-ordering difference). -/
theorem mergeState_comm_cex :
    lookupEnt Card.id (mergeState
        ⟨1, .forming, [⟨"c1", "well", "p", "x", 1, false⟩], []⟩
        ⟨1, .forming, [⟨"c1", "well", "q", "x", 1, false⟩], []⟩).state.cards "c1" ≠
    lookupEnt Card.id (mergeState
        ⟨1, .forming, [⟨"c1", "well", "q", "x", 1, false⟩], []⟩
        ⟨1, .forming, [⟨"c1", "well", "p", "x", 1, false⟩], []⟩).state.cards "c1" := by
  decide

/-- C1 (amended): for board states whose card and vote lists genuinely
represent id-keyed maps (distinct ids) and in which entities sharing an id
that tie on `(rev, owner)` agree on their remaining content fields,
`mergeState` is commutative up to the ordering of the `cards` and `votes`
arrays: both orders produce the same version, the same phase, and the same
entity at every id. -/
theorem mergeState_comm (A B : BoardState)
    (hAc : (A.cards.map Card.id).Nodup) (hAv : (A.votes.map Vote.id).Nodup)
    (hBc : (B.cards.map Card.id).Nodup) (hBv : (B.votes.map Vote.id).Nodup)
    (hTieC : ∀ a ∈ A.cards, ∀ b ∈ B.cards, a.id = b.id → a.rev = b.rev →
      a.authorId = b.authorId → a.column = b.column ∧ a.text = b.text)
    (hTieV : ∀ a ∈ A.votes, ∀ b ∈ B.votes, a.id = b.id → a.rev = b.rev →
      a.voterId = b.voterId → a.cardId = b.cardId) :
    (mergeState A B).state.version = (mergeState B A).state.version ∧
    (mergeState A B).state.phase = (mergeState B A).state.phase ∧
    (∀ k, lookupEnt Card.id (mergeState A B).state.cards k =
      lookupEnt Card.id (mergeState B A).state.cards k) ∧
    (∀ k, lookupEnt Vote.id (mergeState A B).state.votes k =
      lookupEnt Vote.id (mergeState B A).state.votes k) := by
  refine ⟨?_, ?_, ?_, ?_⟩
  · simp [mergeState, Nat.max_comm]
  · simp [mergeState, mergePhase_comm A.phase B.phase]
  · intro k
    rw [mergeState_cards_lookup A B hAc hBc k, mergeState_cards_lookup B A hBc hAc k]
    cases ha : lookupEnt Card.id A.cards k with
    | none =>
      cases hb : lookupEnt Card.id B.cards k <;> rfl
    | some a =>
      cases hb : lookupEnt Card.id B.cards k with
      | none => rfl
      | some b =>
        obtain ⟨hamem, hak⟩ := lookupEnt_mem_and_key Card.id A.cards k a ha
        obtain ⟨hbmem, hbk⟩ := lookupEnt_mem_and_key Card.id B.cards k b hb
        have hid : a.id = b.id := hak.trans hbk.symm
        have := mergeCard_comm a b (fun hr hau => ⟨hid, hTieC a hamem b hbmem hid hr hau⟩)
        simp [this]
  · intro k
    rw [mergeState_votes_lookup A B hAv hBv k, mergeState_votes_lookup B A hBv hAv k]
    cases ha : lookupEnt Vote.id A.votes k with
    | none =>
      cases hb : lookupEnt Vote.id B.votes k <;> rfl
    | some a =>
      cases hb : lookupEnt Vote.id B.votes k with
      | none => rfl
      | some b =>
        obtain ⟨hamem, hak⟩ := lookupEnt_mem_and_key Vote.id A.votes k a ha
        obtain ⟨hbmem, hbk⟩ := lookupEnt_mem_and_key Vote.id B.votes k b hb
        have hid : a.id = b.id := hak.trans hbk.symm
        have := mergeVote_comm a b (fun hr hau => ⟨hid, hTieV a hamem b hbmem hid hr hau⟩)
        simp [this]

/-- C1 witness: the amended commutativity at a concrete pair of states. -/
theorem mergeState_comm_witness :
    (mergeState ⟨1, .forming, [⟨"c1", "well", "p", "x", 2, false⟩], []⟩
        ⟨1, .reviewing, [⟨"c1", "well", "q", "y", 1, false⟩], [⟨"c1:z", "c1", "z", 1, false⟩]⟩).state.version =
      (mergeState ⟨1, .reviewing, [⟨"c1", "well", "q", "y", 1, false⟩], [⟨"c1:z", "c1", "z", 1, false⟩]⟩
        ⟨1, .forming, [⟨"c1", "well", "p", "x", 2, false⟩], []⟩).state.version ∧
    (mergeState ⟨1, .forming, [⟨"c1", "well", "p", "x", 2, false⟩], []⟩
        ⟨1, .reviewing, [⟨"c1", "well", "q", "y", 1, false⟩], [⟨"c1:z", "c1", "z", 1, false⟩]⟩).state.phase =
      (mergeState ⟨1, .reviewing, [⟨"c1", "well", "q", "y", 1, false⟩], [⟨"c1:z", "c1", "z", 1, false⟩]⟩
        ⟨1, .forming, [⟨"c1", "well", "p", "x", 2, false⟩], []⟩).state.phase ∧
    (∀ k, lookupEnt Card.id (mergeState ⟨1, .forming, [⟨"c1", "well", "p", "x", 2, false⟩], []⟩
        ⟨1, .reviewing, [⟨"c1", "well", "q", "y", 1, false⟩], [⟨"c1:z", "c1", "z", 1, false⟩]⟩).state.cards k =
      lookupEnt Card.id (mergeState ⟨1, .reviewing, [⟨"c1", "well", "q", "y", 1, false⟩], [⟨"c1:z", "c1", "z", 1, false⟩]⟩
        ⟨1, .forming, [⟨"c1", "well", "p", "x", 2, false⟩], []⟩).state.cards k) ∧
    (∀ k, lookupEnt Vote.id (mergeState ⟨1, .forming, [⟨"c1", "well", "p", "x", 2, false⟩], []⟩
        ⟨1, .reviewing, [⟨"c1", "well", "q", "y", 1, false⟩], [⟨"c1:z", "c1", "z", 1, false⟩]⟩).state.votes k =
      lookupEnt Vote.id (mergeState ⟨1, .reviewing, [⟨"c1", "well", "q", "y", 1, false⟩], [⟨"c1:z", "c1", "z", 1, false⟩]⟩
        ⟨1, .forming, [⟨"c1", "well", "p", "x", 2, false⟩], []⟩).state.votes k) := by
  apply mergeState_comm
  · decide
  · decide
  · decide
  · decide
  · intro a ha b hb hid hr hau
    simp only [List.mem_singleton] at ha hb
    subst ha
    subst hb
    simp at hr
  · intro a ha b hb hid hr hau
    simp at ha

/-! ## C2 — idempotence of `mergeState` -/

/-- C2, counterexample: a state with a falsy (zero) `version`.  `mergeState`
normalises the version through `local.version || 1`, so merging the state
with itself yields version 1 and `state ≠ A`. -/
theorem mergeState_self_cex :
    (mergeState ⟨0, .forming, [], []⟩ ⟨0, .forming, [], []⟩).state ≠
      ⟨0, .forming, [], []⟩ := by
  decide

/-- C2 (amended): merging a board state with itself reports no change and
returns the state unchanged, provided the state's `version` is at least 1
(a falsy version is normalised to 1) and its card and vote lists genuinely
represent id-keyed maps (distinct ids). -/
theorem mergeState_self (A : BoardState) (hv : 1 ≤ A.version)
    (hc : (A.cards.map Card.id).Nodup) (hw : (A.votes.map Vote.id).Nodup) :
    (mergeState A A).changed = false ∧ (mergeState A A).state = A := by
  have hget_c : ∀ rc ∈ A.cards, mapGet (buildMap Card.id A.cards) rc.id = some rc := by
    intro rc hrc
    rw [mapGet_buildMap Card.id A.cards hc]
    exact lookupEnt_self Card.id A.cards rc hc hrc
  have hget_v : ∀ rv ∈ A.votes, mapGet (buildMap Vote.id A.votes) rv.id = some rv := by
    intro rv hrv
    rw [mapGet_buildMap Vote.id A.votes hw]
    exact lookupEnt_self Vote.id A.votes rv hw hrv
  have hch0 : decide (mergePhase A.phase A.phase ≠ A.phase) = false := by
    simp [mergePhase_self]
  have hcards : ∀ ch, mergeInto Card.id picksRemoteCard (buildMap Card.id A.cards) ch A.cards
      = (buildMap Card.id A.cards, ch) :=
    fun ch => mergeInto_fixed Card.id picksRemoteCard (buildMap Card.id A.cards) ch A.cards
      hget_c (fun rc _ => picksRemoteCard_self rc)
  have hvotes : ∀ ch, mergeInto Vote.id picksRemoteVote (buildMap Vote.id A.votes) ch A.votes
      = (buildMap Vote.id A.votes, ch) :=
    fun ch => mergeInto_fixed Vote.id picksRemoteVote (buildMap Vote.id A.votes) ch A.votes
      hget_v (fun rv _ => picksRemoteVote_self rv)
  have hver : max (versionOr1 A.version) (versionOr1 A.version) = A.version := by
    have : versionOr1 A.version = A.version := by
      unfold versionOr1
      split
      · omega
      · rfl
    rw [this, Nat.max_self]
  constructor
  · simp [mergeState, hcards, hvotes, hch0]
  · simp only [mergeState, hcards, hvotes, hch0, hver,
      mapValues_buildMap Card.id A.cards hc, mapValues_buildMap Vote.id A.votes hw,
      mergePhase_self]

/-- C2 witness: idempotence at a concrete non-trivial state. -/
theorem mergeState_self_witness :
    (mergeState ⟨1, .forming, [⟨"c1", "well", "p", "x", 1, false⟩], [⟨"c1:x", "c1", "x", 1, false⟩]⟩
      ⟨1, .forming, [⟨"c1", "well", "p", "x", 1, false⟩], [⟨"c1:x", "c1", "x", 1, false⟩]⟩).changed = false ∧
    (mergeState ⟨1, .forming, [⟨"c1", "well", "p", "x", 1, false⟩], [⟨"c1:x", "c1", "x", 1, false⟩]⟩
      ⟨1, .forming, [⟨"c1", "well", "p", "x", 1, false⟩], [⟨"c1:x", "c1", "x", 1, false⟩]⟩).state =
      ⟨1, .forming, [⟨"c1", "well", "p", "x", 1, false⟩], [⟨"c1:x", "c1", "x", 1, false⟩]⟩ :=
  mergeState_self _ (by decide) (by decide) (by decide)

/-! ## C3 — tombstone stickiness -/

/-- C3: at equal `(rev, owner)`, a tombstone beats a non-deleted version in
both argument orders, for cards and for votes: a delete at `(R, X)` can
never be overridden by a create/edit at the same `(R, X)`. -/
theorem tombstone_sticky :
    (∀ a b : Card, a.id = b.id → a.rev = b.rev → a.authorId = b.authorId →
      a.isDeleted = true → b.isDeleted = false →
      mergeCard a b = a ∧ mergeCard b a = a) ∧
    (∀ a b : Vote, a.id = b.id → a.rev = b.rev → a.voterId = b.voterId →
      a.isDeleted = true → b.isDeleted = false →
      mergeVote a b = a ∧ mergeVote b a = a) := by
  constructor
  · intro a b _ hr hau hda hdb
    constructor
    · simp [mergeCard, picksRemoteCard, hr, lt_irrefl, hau, strLt_irrefl, hda, hdb]
    · simp [mergeCard, picksRemoteCard, hr, lt_irrefl, hau, strLt_irrefl, hda, hdb]
  · intro a b _ hr hau hda hdb
    constructor
    · simp [mergeVote, picksRemoteVote, hr, lt_irrefl, hau, strLt_irrefl, hda, hdb]
    · simp [mergeVote, picksRemoteVote, hr, lt_irrefl, hau, strLt_irrefl, hda, hdb]

/-- C3 witness: a concrete tombstone/edit pair at the same `(rev, author)`,
and a concrete tombstone/add pair at the same `(rev, voter)`. -/
theorem tombstone_sticky_witness :
    (mergeCard ⟨"c1", "well", "", "x", 3, true⟩ ⟨"c1", "well", "new", "x", 3, false⟩ =
      ⟨"c1", "well", "", "x", 3, true⟩ ∧
    mergeCard ⟨"c1", "well", "new", "x", 3, false⟩ ⟨"c1", "well", "", "x", 3, true⟩ =
      ⟨"c1", "well", "", "x", 3, true⟩) ∧
    (mergeVote ⟨"c1:x", "c1", "x", 2, true⟩ ⟨"c1:x", "c1", "x", 2, false⟩ =
      ⟨"c1:x", "c1", "x", 2, true⟩ ∧
    mergeVote ⟨"c1:x", "c1", "x", 2, false⟩ ⟨"c1:x", "c1", "x", 2, true⟩ =
      ⟨"c1:x", "c1", "x", 2, true⟩) := by
  constructor
  · exact tombstone_sticky.1 ⟨"c1", "well", "", "x", 3, true⟩
      ⟨"c1", "well", "new", "x", 3, false⟩ rfl rfl rfl rfl rfl
  · exact tombstone_sticky.2 ⟨"c1:x", "c1", "x", 2, true⟩
      ⟨"c1:x", "c1", "x", 2, false⟩ rfl rfl rfl rfl rfl

/-! ## C5 — phase monotonicity -/

/-- C5: once the local phase is `reviewing`, neither merging nor incoming
operations can move it back to `forming`: `mergePhase` returns `reviewing`
whenever either argument is `reviewing`, and every incoming validator
(cardOp, vote, phaseChanged) rejects an operation declaring phase `forming`
while the local phase is `reviewing`. -/
theorem phase_monotonic :
    (∀ l r : Phase, l = .reviewing ∨ r = .reviewing → mergePhase l r = .reviewing) ∧
    (∀ (op : WireOp) (st : BoardState), op.phase = some "forming" →
      validateIncomingCardOp op st .reviewing = false) ∧
    (∀ (op : WireOp) (st : BoardState), op.phase = some "forming" →
      validateIncomingVoteOp op st .reviewing = false) ∧
    (∀ op : WireOp, op.phase = some "forming" →
      validateIncomingPhaseChange op .reviewing = false) := by
  refine ⟨?_, ?_, ?_, ?_⟩
  · intro l r h
    rcases h with h | h <;> subst h <;> simp [mergePhase]
  · intro op st h
    simp [validateIncomingCardOp, validateCommonOp, shouldRejectForPhase, h]
  · intro op st h
    simp [validateIncomingVoteOp, validateCommonOp, shouldRejectForPhase, h]
  · intro op h
    simp [validateIncomingPhaseChange, validateCommonOp, shouldRejectForPhase, h]

/-- C5 witness: concrete instances of all four clauses. -/
theorem phase_monotonic_witness :
    mergePhase .reviewing .forming = .reviewing ∧
    validateIncomingCardOp { type := "cardOp", opId := some "op-1", phase := some "forming" }
      createEmptyState .reviewing = false ∧
    validateIncomingVoteOp { type := "vote", opId := some "op-2", phase := some "forming" }
      createEmptyState .reviewing = false ∧
    validateIncomingPhaseChange { type := "phaseChanged", opId := some "op-3", phase := some "forming" }
      .reviewing = false :=
  ⟨phase_monotonic.1 .reviewing .forming (Or.inl rfl),
   phase_monotonic.2.1 _ createEmptyState rfl,
   phase_monotonic.2.2.1 _ createEmptyState rfl,
   phase_monotonic.2.2.2 _ rfl⟩

/-! ## C10 — falsy opIds are never deduplicated -/

/-- C10: for a falsy `opId` (missing or empty), `isDuplicate` returns `false`
and leaves the seen-set untouched — on every call, for every seen-set, so
repeated calls keep returning `false` — and `markSeen` records nothing. -/
theorem dedup_falsy_noop (seen : List String) (opId : Option String)
    (h : opId = none ∨ opId = some "") :
    isDuplicate seen opId = (false, seen) ∧ markSeen seen opId = seen := by
  rcases h with h | h <;> subst h <;> simp [isDuplicate, markSeen]

/-- C10 witness: the empty-string opId against a non-empty seen-set. -/
theorem dedup_falsy_noop_witness :
    isDuplicate ["a"] (some "") = (false, ["a"]) ∧ markSeen ["a"] (some "") = ["a"] :=
  dedup_falsy_noop ["a"] (some "") (Or.inr rfl)

/-! ## C4 — monotonic revisions on the incoming path -/

/-- C4: an incoming `cardOp`/`vote` whose `rev` is strictly below the stored
revision of its entity is rejected by incoming validation, and processing it
leaves the client context (state, dedup set, buffers) unchanged; an
operation that is valid in every other respect and whose `rev` is equal to
or higher than the stored revision passes validation, and — when it is not a
duplicate and no sync window is open — is handed to `applyCardOp`/`applyVote`,
i.e. reaches the merge model. -/
theorem rev_monotonic :
    (∀ (ctx : ClientCtx) (syncing : Bool) (op : WireOp) (r er : Int),
      op.rev = some r → getCardRev ctx.state op.cardId = some er → r < er →
      validateIncomingCardOp op ctx.state ctx.state.phase = false ∧
      processIncomingCardOp ctx syncing op = ctx) ∧
    (∀ (ctx : ClientCtx) (syncing : Bool) (op : WireOp) (r er : Int),
      op.rev = some r → getVoteRev ctx.state op.cardId op.voterId = some er → r < er →
      validateIncomingVoteOp op ctx.state ctx.state.phase = false ∧
      processIncomingVoteOp ctx syncing op = ctx) ∧
    (∀ (ctx : ClientCtx) (op : WireOp) (r er : Int) (i : String),
      op.type = "cardOp" → op.opId = some i → i ≠ "" →
      isValidPhaseValue op.phase = true →
      shouldRejectForPhase op.phase ctx.state.phase = false →
      truthy op.senderId = true → truthy op.cardId = true → truthy op.authorId = true →
      op.rev = some r → 1 ≤ r →
      (op.action = some "create" ∨ op.action = some "edit" ∨ op.action = some "delete") →
      (op.action = some "create" → truthy op.column = true ∧ truthy op.text = true) →
      op.authorId = op.senderId →
      getCardRev ctx.state op.cardId = some er → er ≤ r →
      i ∉ ctx.seen →
      validateIncomingCardOp op ctx.state ctx.state.phase = true ∧
      processIncomingCardOp ctx false op =
        ⟨applyCardOp ctx.state op, i :: ctx.seen, ctx.buffered⟩) ∧
    (∀ (ctx : ClientCtx) (op : WireOp) (r er : Int) (i : String),
      op.type = "vote" → op.opId = some i → i ≠ "" →
      isValidPhaseValue op.phase = true →
      shouldRejectForPhase op.phase ctx.state.phase = false →
      truthy op.senderId = true → truthy op.cardId = true → truthy op.voterId = true →
      op.rev = some r → 1 ≤ r →
      (op.action = some "add" ∨ op.action = some "remove") →
      op.voterId = op.senderId →
      getVoteRev ctx.state op.cardId op.voterId = some er → er ≤ r →
      i ∉ ctx.seen →
      validateIncomingVoteOp op ctx.state ctx.state.phase = true ∧
      processIncomingVoteOp ctx false op =
        ⟨applyVote ctx.state op, i :: ctx.seen, ctx.buffered⟩) := by
  refine ⟨?_, ?_, ?_, ?_⟩
  · intro ctx syncing op r er hrev hget hr
    have hstale : revNotStale (getCardRev ctx.state op.cardId) op.rev = false := by
      rw [hget, hrev]
      simp only [revNotStale, decide_eq_false_iff_not]
      omega
    have hval : validateIncomingCardOp op ctx.state ctx.state.phase = false := by
      unfold validateIncomingCardOp
      rw [hstale, Bool.and_false]
    exact ⟨hval, by simp [processIncomingCardOp, hval]⟩
  · intro ctx syncing op r er hrev hget hr
    have hstale : revNotStale (getVoteRev ctx.state op.cardId op.voterId) op.rev = false := by
      rw [hget, hrev]
      simp only [revNotStale, decide_eq_false_iff_not]
      omega
    have hval : validateIncomingVoteOp op ctx.state ctx.state.phase = false := by
      unfold validateIncomingVoteOp
      rw [hstale, Bool.and_false]
    exact ⟨hval, by simp [processIncomingVoteOp, hval]⟩
  · intro ctx op r er i htype hopid hine hphase hrej hsender hcard hauthor hrev hr1
      haction hcreate hauth hget her hseen
    have hval : validateIncomingCardOp op ctx.state ctx.state.phase = true := by
      rcases haction with ha | ha | ha <;>
        simp_all [validateIncomingCardOp, validateCommonOp, revAtLeastOne, revNotStale,
          truthy]
    refine ⟨hval, ?_⟩
    simp [processIncomingCardOp, hval, isDuplicate, truthy, hopid, hine, hseen]
  · intro ctx op r er i htype hopid hine hphase hrej hsender hcard hvoter hrev hr1
      haction hauth hget her hseen
    have hval : validateIncomingVoteOp op ctx.state ctx.state.phase = true := by
      rcases haction with ha | ha <;>
        simp_all [validateIncomingVoteOp, validateCommonOp, revAtLeastOne, revNotStale,
          truthy]
    refine ⟨hval, ?_⟩
    simp [processIncomingVoteOp, hval, isDuplicate, truthy, hopid, hine, hseen]

/-- C4 witness: on a board holding card `c1` at rev 2, an edit at rev 1 is
rejected and changes nothing, while an edit at rev 2 passes validation and is
applied through the merge model. -/
theorem rev_monotonic_witness :
    (validateIncomingCardOp
        { type := "cardOp", opId := some "op-1", phase := some "forming",
          senderId := some "x", cardId := some "c1", authorId := some "x",
          rev := some 1, action := some "edit", text := some "t2" }
        ⟨1, .forming, [⟨"c1", "well", "t", "x", 2, false⟩], []⟩ .forming = false ∧
      processIncomingCardOp
        ⟨⟨1, .forming, [⟨"c1", "well", "t", "x", 2, false⟩], []⟩, [], []⟩ false
        { type := "cardOp", opId := some "op-1", phase := some "forming",
          senderId := some "x", cardId := some "c1", authorId := some "x",
          rev := some 1, action := some "edit", text := some "t2" } =
        ⟨⟨1, .forming, [⟨"c1", "well", "t", "x", 2, false⟩], []⟩, [], []⟩) ∧
    (validateIncomingCardOp
        { type := "cardOp", opId := some "op-2", phase := some "forming",
          senderId := some "x", cardId := some "c1", authorId := some "x",
          rev := some 2, action := some "edit", text := some "t2" }
        ⟨1, .forming, [⟨"c1", "well", "t", "x", 2, false⟩], []⟩ .forming = true ∧
      processIncomingCardOp
        ⟨⟨1, .forming, [⟨"c1", "well", "t", "x", 2, false⟩], []⟩, [], []⟩ false
        { type := "cardOp", opId := some "op-2", phase := some "forming",
          senderId := some "x", cardId := some "c1", authorId := some "x",
          rev := some 2, action := some "edit", text := some "t2" } =
        ⟨applyCardOp ⟨1, .forming, [⟨"c1", "well", "t", "x", 2, false⟩], []⟩
          { type := "cardOp", opId := some "op-2", phase := some "forming",
            senderId := some "x", cardId := some "c1", authorId := some "x",
            rev := some 2, action := some "edit", text := some "t2" },
          ["op-2"], []⟩) := by
  constructor
  · exact rev_monotonic.1
      ⟨⟨1, .forming, [⟨"c1", "well", "t", "x", 2, false⟩], []⟩, [], []⟩ false
      _ 1 2 rfl (by decide) (by decide)
  · exact rev_monotonic.2.2.1
      ⟨⟨1, .forming, [⟨"c1", "well", "t", "x", 2, false⟩], []⟩, [], []⟩
      _ 2 2 "op-2" rfl rfl (by decide) (by decide) (by decide) (by decide) (by decide)
      (by decide) rfl (by decide) (Or.inr (Or.inl rfl)) (by decide) rfl
      (by decide) (by decide) (by decide)

/-! ## C6 — the sync-window completion -/

theorem syncFold_fst (rs : List BoardState) (init : BoardState) (b : Bool) :
    (rs.foldl
      (fun acc r =>
        let res := mergeState acc.1 r
        (res.state, acc.2 || res.changed)) (init, b)).1 =
      rs.foldl (fun st r => (mergeState st r).state) init := by
  induction rs generalizing init b with
  | nil => rfl
  | cons r rest ih => simp only [List.foldl_cons, ih]

theorem syncFold_changed_ne_nil (init : BoardState) (rs : List BoardState)
    (h : (syncFold init rs).2 = true) : rs ≠ [] := by
  intro he
  subst he
  simp [syncFold] at h

/-- C6: when the timer fires on an open window, `completeSync` reports (via
`onStateReady`) exactly the sequential left fold of `mergeState` over the
collected snapshots starting from the local state (or the empty state);
`onBroadcastState` is invoked exactly once — with that final state — iff some
fold reported a change, and never otherwise; the buffered operations are
handed (in order) to the apply path, and the window's buffers are cleared. -/
theorem completeSync_spec (localState : Option BoardState) (w : SyncWindow)
    (h : w.isSyncing = true) :
    (completeSync localState w).onStateReadyCalls =
      [w.receivedStates.foldl (fun st r => (mergeState st r).state)
        (localState.getD createEmptyState)] ∧
    (completeSync localState w).onBroadcastStateCalls =
      (if (syncFold (localState.getD createEmptyState) w.receivedStates).2 then
        [w.receivedStates.foldl (fun st r => (mergeState st r).state)
          (localState.getD createEmptyState)]
      else []) ∧
    (completeSync localState w).window = ⟨false, [], []⟩ ∧
    (completeSync localState w).onBufferedOpsCalls.flatten = w.bufferedOps := by
  have hfst : (syncFold (localState.getD createEmptyState) w.receivedStates).1 =
      w.receivedStates.foldl (fun st r => (mergeState st r).state)
        (localState.getD createEmptyState) :=
    syncFold_fst w.receivedStates (localState.getD createEmptyState) false
  refine ⟨?_, ?_, ?_, ?_⟩
  · simp [completeSync, h, hfst]
  · simp only [completeSync, h, Bool.true_eq_false, if_false, hfst]
    cases hch : (syncFold (localState.getD createEmptyState) w.receivedStates).2 with
    | false => simp
    | true =>
      have hne := syncFold_changed_ne_nil _ _ hch
      have hlen : 0 < w.receivedStates.length := List.length_pos.mpr hne
      simp [hlen]
  · simp [completeSync, h]
  · simp only [completeSync, h, Bool.true_eq_false, if_false]
    cases hops : w.bufferedOps with
    | nil => simp
    | cons o os => simp

/-- C6 witness: one collected snapshot that changes the empty local state and
one buffered vote operation. -/
theorem completeSync_spec_witness :
    (completeSync none ⟨true, [⟨1, .forming, [⟨"c1", "well", "p", "x", 1, false⟩], []⟩],
        [{ type := "vote", opId := some "op-9" }]⟩).onStateReadyCalls =
      [[⟨1, .forming, [⟨"c1", "well", "p", "x", 1, false⟩], []⟩].foldl
        (fun st r => (mergeState st r).state) ((none : Option BoardState).getD createEmptyState)] ∧
    (completeSync none ⟨true, [⟨1, .forming, [⟨"c1", "well", "p", "x", 1, false⟩], []⟩],
        [{ type := "vote", opId := some "op-9" }]⟩).onBroadcastStateCalls =
      (if (syncFold ((none : Option BoardState).getD createEmptyState)
            [⟨1, .forming, [⟨"c1", "well", "p", "x", 1, false⟩], []⟩]).2 then
        [[⟨1, .forming, [⟨"c1", "well", "p", "x", 1, false⟩], []⟩].foldl
          (fun st r => (mergeState st r).state) ((none : Option BoardState).getD createEmptyState)]
      else []) ∧
    (completeSync none ⟨true, [⟨1, .forming, [⟨"c1", "well", "p", "x", 1, false⟩], []⟩],
        [{ type := "vote", opId := some "op-9" }]⟩).window = ⟨false, [], []⟩ ∧
    (completeSync none ⟨true, [⟨1, .forming, [⟨"c1", "well", "p", "x", 1, false⟩], []⟩],
        [{ type := "vote", opId := some "op-9" }]⟩).onBufferedOpsCalls.flatten =
      [{ type := "vote", opId := some "op-9" }] :=
  completeSync_spec none
    ⟨true, [⟨1, .forming, [⟨"c1", "well", "p", "x", 1, false⟩], []⟩],
      [{ type := "vote", opId := some "op-9" }]⟩ rfl

/-! ## C7, C8, C9 — relay behaviour at the inputs its own tests exercise -/

/-- C7 evaluation: `"client-2"` joins a board holding `"client-1"`.  The
session is registered, the joiner gets `welcome{2,0}`, and the broadcast goes
only to `"client-1"` — but the `participantsUpdate` frame carries no
`syncForClientId` field (`none`), where the protocol document, the
integration test and the client's join-time sync all require
`syncForClientId = "client-2"`. -/
theorem handleJoin_eval :
    handleJoin [("client-1", false)] "client-2" =
      { board := [("client-1", false), ("client-2", false)]
        toJoiner := [.welcome 2 0]
        broadcasts := [("client-1", .participantsUpdate 2 0 none)]
        accepted := true } := by
  decide

/-- C8 evaluation: the client sends `{type:"setReady", isReady:true}`
(`part_003` line 775, PROTOCOL.md), but `HandleSetReady` reads the `ready`
property, so the frame is silently dropped: no readiness update, no
`participantsUpdate` broadcast. -/
theorem handleSetReady_eval :
    handleSetReady [("client-1", false), ("client-2", false)] "client-1"
      { ready := none, isReady := some true } =
      ([("client-1", false), ("client-2", false)], []) := by
  decide

/-- C9 evaluation: a `cardOp` from `"client-1"` is fanned out to exactly the
other session and not echoed — but the delivered frame is the received
payload byte-for-byte, with no `senderId` tag, so the receiver-side
authorship check (`validateIncomingCardOp`, which requires `senderId`)
rejects it. -/
theorem broadcastMessage_eval :
    broadcastMessage [("client-1", false), ("client-2", false)] "client-1"
      { type := "cardOp", opId := some "op-1", phase := some "forming",
        cardId := some "card-1", column := some "well", text := some "Test card",
        authorId := some "client-1", rev := some 1, action := some "create" } =
      [("client-2",
        { type := "cardOp", opId := some "op-1", phase := some "forming",
          cardId := some "card-1", column := some "well", text := some "Test card",
          authorId := some "client-1", rev := some 1, action := some "create" })] ∧
    (WireOp.senderId
      { type := "cardOp", opId := some "op-1", phase := some "forming",
        cardId := some "card-1", column := some "well", text := some "Test card",
        authorId := some "client-1", rev := some 1, action := some "create" }) = none ∧
    validateIncomingCardOp
      { type := "cardOp", opId := some "op-1", phase := some "forming",
        cardId := some "card-1", column := some "well", text := some "Test card",
        authorId := some "client-1", rev := some 1, action := some "create" }
      createEmptyState .forming = false := by
  refine ⟨by decide, rfl, by decide⟩

end DeltaBoard
